import Mathlib

/-!
Shallow embedding of `code/neural_networks/layers.py` (CNN layer primitives:
Conv2D, Pool2D, Flatten, the layer factory and the shared `Layer` state
operations), together with theorems checking the natural-language
specification against this embedding.

Modelling conventions:
* numpy float arrays are modelled with exact rationals (ℚ); the spec makes
  no floating-point precision claims, only structural/arithmetic ones.
* a rank-4 array (layout `[batch, height, width, channel]`) is a record of
  its four dimensions plus a total index function `Nat → Nat → Nat → Nat → ℚ`;
  only indices below the dimensions are meaningful.
* vectorized numpy expressions (slice products, axis sums, broadcasts)
  are translated to explicit sums over the same index ranges;
  `for` loops that accumulate with `+=` become `List.foldl` over
  `List.range`, one fold per loop, with the slice-`+=` as the step.
* Python `raise` becomes `Except.error`.
-/

/-- Sum of `f 0 + f 1 + ... + f (n-1)`, used to translate `np.sum` over an
axis of length `n`. -/
def sumT : Nat → (Nat → ℚ) → ℚ
  | 0, _ => 0
  | n + 1, f => sumT n f + f n

theorem sumT_eq_finset_sum (n : Nat) (f : Nat → ℚ) :
    sumT n f = ∑ j in Finset.range n, f j := by
  induction n with
  | zero => simp [sumT]
  | succ n ih => rw [Finset.sum_range_succ, ← ih]; rfl

/-- Index function of a rank-4 array. -/
abbrev T4f : Type := Nat → Nat → Nat → Nat → ℚ

/-- A rank-4 tensor in channels-last layout `[batch, height, width, channel]`:
the four dimensions plus the entries. -/
structure Tensor4 where
  b : Nat
  h : Nat
  w : Nat
  c : Nat
  data : T4f

/-- A rank-2 tensor (used for the `[1, n_out]` bias gradient). -/
structure Tensor2 where
  r : Nat
  c : Nat
  data : Nat → Nat → ℚ

/-- `np.pad(X, ((0,0),(p0,p0),(p1,p1),(0,0)), mode='constant')` on an array
with spatial extent `hh × ww`: spatial zero padding by `p0` rows and `p1`
columns on each side. -/
def padData (p0 p1 hh ww : Nat) (f : T4f) : T4f :=
  fun i r c ch =>
    if p0 ≤ r ∧ r < hh + p0 ∧ p1 ≤ c ∧ c < ww + p1 then
      f i (r - p0) (c - p1) ch
    else 0

/-- The pad argument accepted by the layers: `"same"`, `"valid"`, an integer,
or anything else (which is a configuration error). -/
inductive PadArg where
  | same : PadArg
  | valid : PadArg
  | intVal : Nat → PadArg
  | other : String → PadArg
deriving DecidableEq

/-- Pad resolution, as written identically in `Conv2D._init_parameters`
(with `kh, kw` the kernel dimensions `W_shape[0], W_shape[1]`) and in
`Pool2D.__init__`: `"same" → ((kh-1)//2, (kw-1)//2)`, `"valid" → (0,0)`,
integer `p → (p,p)`, anything else raises `ValueError`. -/
def resolvePad (pad : PadArg) (kh kw : Nat) : Except String (Nat × Nat) :=
  match pad with
  | .same => .ok ((kh - 1) / 2, (kw - 1) / 2)
  | .valid => .ok ((0 : Nat), (0 : Nat))
  | .intVal p => .ok (p, p)
  | .other _ => .error "invalid Pad mode found in self.pad."

/-- The flattened `kh*kw` window used by `Pool2D`:
`X_pad[:, row0:row1, col0:col1, :].reshape(n, kh*kw, c)` flattens each
window in row-major order, flat position `p` holding entry `(p / kw, p % kw)`. -/
def windowList (kh kw : Nat) (f : Nat → Nat → ℚ) : List ℚ :=
  (List.range (kh * kw)).map (fun p => f (p / kw) (p % kw))

/-- `np.max` of the elements of a nonempty list (`0` on the empty list,
which numpy would reject). -/
def listMax : List ℚ → ℚ
  | [] => 0
  | a :: rest => rest.foldl max a

/-- Scan kept by `np.argmax`: best value, best index, current index; a later
element replaces the best only when strictly greater, so ties keep the
first occurrence. -/
def amaxAux : List ℚ → ℚ → Nat → Nat → ℚ × Nat
  | [], bv, bi, _ => (bv, bi)
  | a :: rest, bv, bi, ci =>
    if bv < a then amaxAux rest a ci (ci + 1) else amaxAux rest bv bi (ci + 1)

/-- `np.argmax` of a flat list: index of the first occurrence of the maximum
(`0` on the empty list). -/
def listArgmax : List ℚ → Nat
  | [] => 0
  | a :: rest => (amaxAux rest a 0 1).2

theorem amaxAux_fst (l : List ℚ) :
    ∀ bv bi ci, (amaxAux l bv bi ci).1 = l.foldl max bv := by
  induction l with
  | nil => intro bv bi ci; rfl
  | cons a rest ih =>
    intro bv bi ci
    by_cases hba : bv < a
    · rw [amaxAux, if_pos hba, ih]
      simp [max_eq_right (le_of_lt hba)]
    · rw [amaxAux, if_neg hba, ih]
      simp [max_eq_left (le_of_not_lt hba)]

theorem amaxAux_spec (l : List ℚ) :
    ∀ bv bi ci,
      ((amaxAux l bv bi ci).2 = bi ∧ (amaxAux l bv bi ci).1 = bv) ∨
      (∃ k, k < l.length ∧ (amaxAux l bv bi ci).2 = ci + k ∧
        l.getD k 0 = (amaxAux l bv bi ci).1 ∧
        (∀ j, j < k → l.getD j 0 < (amaxAux l bv bi ci).1) ∧
        bv < (amaxAux l bv bi ci).1) := by
  induction l with
  | nil => intro bv bi ci; exact Or.inl ⟨rfl, rfl⟩
  | cons a rest ih =>
    intro bv bi ci
    by_cases hba : bv < a
    · rw [amaxAux, if_pos hba]
      rcases ih a ci (ci + 1) with ⟨h2, h1⟩ | ⟨k, hk, h2, hget, hlt, hv⟩
      · refine Or.inr ⟨0, by simp, h2, ?_, ?_, ?_⟩
        · simpa using h1.symm
        · intro j hj; omega
        · rw [h1]; exact hba
      · refine Or.inr ⟨k + 1, by simpa using hk, by omega, by simpa using hget, ?_, ?_⟩
        · intro j hj
          cases j with
          | zero => simpa using hv
          | succ j => exact hlt j (by omega)
        · exact lt_trans hba hv
    · rw [amaxAux, if_neg hba]
      rcases ih bv bi (ci + 1) with ⟨h2, h1⟩ | ⟨k, hk, h2, hget, hlt, hv⟩
      · exact Or.inl ⟨h2, h1⟩
      · refine Or.inr ⟨k + 1, by simpa using hk, by omega, by simpa using hget, ?_, hv⟩
        intro j hj
        cases j with
        | zero => simpa using lt_of_le_of_lt (le_of_not_lt hba) hv
        | succ j => exact hlt j (by omega)

theorem listArgmax_lt_length (l : List ℚ) (hl : l ≠ []) :
    listArgmax l < l.length := by
  cases l with
  | nil => exact absurd rfl hl
  | cons a rest =>
    rcases amaxAux_spec rest a 0 1 with ⟨h2, _⟩ | ⟨k, hk, h2, _⟩
    · rw [listArgmax, h2]; simp
    · rw [listArgmax, h2]; simp; omega

/-- The value at `listArgmax` is the maximum of the list, and every earlier
position is strictly smaller: `np.argmax` breaks ties by first occurrence
in the scan order. -/
theorem listArgmax_first (l : List ℚ) (hl : l ≠ []) :
    l.getD (listArgmax l) 0 = listMax l ∧
      ∀ j, j < listArgmax l → l.getD j 0 < listMax l := by
  cases l with
  | nil => exact absurd rfl hl
  | cons a rest =>
    have hmax : (amaxAux rest a 0 1).1 = listMax (a :: rest) := amaxAux_fst rest a 0 1
    rcases amaxAux_spec rest a 0 1 with ⟨h2, h1⟩ | ⟨k, hk, h2, hget, hlt, hv⟩
    · constructor
      · rw [listArgmax, h2]
        simpa using (h1.symm.trans hmax)
      · intro j hj
        rw [listArgmax, h2] at hj
        omega
    · constructor
      · rw [listArgmax, h2, Nat.add_comm 1 k]
        simpa [List.getD] using hget.trans hmax
      · intro j hj
        rw [listArgmax, h2] at hj
        cases j with
        | zero => simpa using (hmax ▸ hv)
        | succ j =>
          have := hlt j (by omega)
          rw [List.getD_cons_succ]
          exact hmax ▸ this

/-- A fold over `List.range n` whose step adds a per-index contribution to a
rank-4 accumulator equals the initial accumulator plus the sum of the
contributions (closed form of an accumulation loop). -/
theorem foldl_add4 (step : T4f → Nat → T4f) (g : Nat → T4f)
    (hstep : ∀ a j, step a j = fun i r c d => a i r c d + g j i r c d)
    (n : Nat) (init : T4f) :
    (List.range n).foldl step init =
      fun i r c d => init i r c d + sumT n (fun j => g j i r c d) := by
  induction n with
  | zero => funext i r c d; simp [sumT]
  | succ n ih =>
    rw [List.range_succ, List.foldl_append, List.foldl_cons, List.foldl_nil, ih, hstep]
    funext i r c d
    simp [sumT]
    ring

/-- Pair version of `foldl_add4`, for a loop body that accumulates into two
rank-4 arrays at once (as `Conv2D.backward` does with `dX_pad` and `dW`). -/
theorem foldl_pair_add4 (step : T4f × T4f → Nat → T4f × T4f) (g1 g2 : Nat → T4f)
    (hstep : ∀ a j, step a j =
      (fun i r c d => a.1 i r c d + g1 j i r c d,
       fun i r c d => a.2 i r c d + g2 j i r c d))
    (n : Nat) (init : T4f × T4f) :
    (List.range n).foldl step init =
      (fun i r c d => init.1 i r c d + sumT n (fun j => g1 j i r c d),
       fun i r c d => init.2 i r c d + sumT n (fun j => g2 j i r c d)) := by
  induction n with
  | zero =>
    apply Prod.ext <;> funext i r c d <;> simp [sumT]
  | succ n ih =>
    rw [List.range_succ, List.foldl_append, List.foldl_cons, List.foldl_nil, ih, hstep]
    apply Prod.ext <;> funext i r c d <;> simp [sumT] <;> ring

/-! ## Conv2D

`Conv2D.forward` / `Conv2D.backward` from `layers.py`, after lazy
parameter initialization has resolved `pad` to a pair.  The activation is
the external capability of the spec: an arbitrary tensor-to-tensor
function `act` (forward) and `actBack Z dLdY` (backward). -/

/-- Result of `Conv2D.forward`: the returned output and the two cache
entries `cache["Z"]`, `cache["X"]` it stores. -/
structure ConvFwdRes where
  out : Tensor4
  cacheZ : Tensor4
  cacheX : Tensor4

/-- `Conv2D.forward`.  `W` has index order `[kh, kw, in_channels,
out_channels]` with dimensions `kh, kw, X.c, nOut`; `bias ch` is
`b[:, ch]` of the `[1, n_out]` bias.
`out_rows = int((in_rows + 2*pad[0] - kernel_height) / stride + 1)`
(floor, translated to Nat subtraction and division — identical to the
Python value whenever `kh ≤ in_rows + 2*pad[0]`), and
`Z[:, row, col, channel] = np.sum(padX[:, row*s : row*s+kh,
col*s : col*s+kw, :] * W[:, :, :, channel], axis=(1,2,3)) + b[:, channel]`
becomes the triple sum below. -/
def conv2dForward (act : T4f → T4f) (W : T4f) (kh kw nOut : Nat)
    (bias : Nat → ℚ) (stride : Nat) (pad : Nat × Nat) (X : Tensor4) :
    ConvFwdRes :=
  let outR := (X.h + 2 * pad.1 - kh) / stride + 1
  let outC := (X.w + 2 * pad.2 - kw) / stride + 1
  let padX := padData pad.1 pad.2 X.h X.w X.data
  let Z : T4f := fun i row col ch =>
    sumT kh (fun m => sumT kw (fun n => sumT X.c (fun cin =>
      padX i (row * stride + m) (col * stride + n) cin * W m n cin ch))) + bias ch
  { out := ⟨X.b, outR, outC, nOut, act Z⟩,
    cacheZ := ⟨X.b, outR, outC, nOut, Z⟩,
    cacheX := X }

/-- Result of `Conv2D.backward`: returned `dX` plus the stored
`gradients["W"]` and `gradients["b"]`. -/
structure ConvBwdRes where
  dX : Tensor4
  gradW : T4f
  gradB : Tensor2

/-- One iteration of the `Conv2D.backward` triple loop at `(row, col, ch)`,
acting on the pair `(dX_pad, dW)`:
`dX_pad[:, row*s : row*s+kh, col*s : col*s+kw, :] +=
   W[newaxis, :, :, :, ch] * dZ[:, row:row+1, col:col+1, newaxis, ch]`
adds `W[r - row*s, c - col*s, cc, ch] * dZ[i, row, col, ch]` at each padded
position `(i, r, c, cc)` inside the window, and
`dW[:, :, :, ch] += np.sum(X_pad[window] * dZ[...], axis=0)`
adds `Σ_i X_pad[i, row*s+m, col*s+n, cin] * dZ[i, row, col, ch]`
to `dW[m, n, cin, ch]`. -/
def convBwdContribX (W dZ : T4f) (kh kw stride : Nat) (row col ch : Nat) : T4f :=
  fun i r c cc =>
    if row * stride ≤ r ∧ r < row * stride + kh ∧
        col * stride ≤ c ∧ c < col * stride + kw then
      W (r - row * stride) (c - col * stride) cc ch * dZ i row col ch
    else 0

def convBwdContribW (Xpad dZ : T4f) (stride nB : Nat) (row col ch : Nat) : T4f :=
  fun m n cin cc =>
    if cc = ch then
      sumT nB (fun i =>
        Xpad i (row * stride + m) (col * stride + n) cin * dZ i row col ch)
    else 0

def convBwdStep (W dZ Xpad : T4f) (kh kw stride nB : Nat)
    (row col ch : Nat) (acc : T4f × T4f) : T4f × T4f :=
  (fun i r c cc => acc.1 i r c cc +
      convBwdContribX W dZ kh kw stride row col ch i r c cc,
   fun m n cin cc => acc.2 m n cin cc +
      convBwdContribW Xpad dZ stride nB row col ch m n cin cc)

/-- `Conv2D.backward`.  `cacheX`, `cacheZ` are the cached input and
pre-activation; `dZ = self.activation.backward(Z, dLdY)`;
`dB = dZ.sum(axis=(0,1,2)).reshape(1, -1)`; the triple loop over
`(row, col, channel)` scatter-accumulates into `dX_pad` and `dW`; finally
`dX = dX_pad[:, pad[0] : in_rows+pad[0], pad[1] : in_cols+pad[1], :]`. -/
def conv2dBackward (actBack : T4f → T4f → T4f) (W : T4f) (kh kw nOut : Nat)
    (stride : Nat) (pad : Nat × Nat) (cacheX cacheZ : Tensor4) (dLdY : T4f) :
    ConvBwdRes :=
  let dZ := actBack cacheZ.data dLdY
  let outR := (cacheX.h + 2 * pad.1 - kh) / stride + 1
  let outC := (cacheX.w + 2 * pad.2 - kw) / stride + 1
  let Xpad := padData pad.1 pad.2 cacheX.h cacheX.w cacheX.data
  let dB : Nat → ℚ := fun ch =>
    sumT cacheX.b (fun i => sumT outR (fun r => sumT outC (fun c => dZ i r c ch)))
  let res :=
    (List.range outR).foldl (fun acc row =>
      (List.range outC).foldl (fun acc2 col =>
        (List.range nOut).foldl (fun acc3 ch =>
          convBwdStep W dZ Xpad kh kw stride cacheX.b row col ch acc3) acc2) acc)
      ((fun _ _ _ _ => 0), (fun _ _ _ _ => 0))
  { dX := ⟨cacheX.b, cacheX.h, cacheX.w, cacheX.c,
      fun i r c ch => res.1 i (r + pad.1) (c + pad.2) ch⟩,
    gradW := res.2,
    gradB := ⟨1, nOut, fun _ ch => dB ch⟩ }

/-! ## Pool2D -/

/-- State built by `Pool2D.__init__`: kernel shape, stride, resolved pad,
the stored `mode` string, and whether the `pool_fn` attribute got assigned
(it is assigned only for `"max"` and `"average"`; there is no `else`
branch on `mode` in `__init__`). -/
structure Pool2DState where
  kernel : Nat × Nat
  stride : Nat
  pad : Nat × Nat
  mode : String
  poolFnSet : Bool
deriving DecidableEq

/-- `Pool2D.__init__`.  (The `int → (int, int)` kernel-shape promotion is
elided: the kernel is passed as a pair.)  Pad resolution can raise
`ValueError`; the mode is stored without validation, and `pool_fn` is set
only when the mode is `"max"` or `"average"`. -/
def pool2dInit (kernelShape : Nat × Nat) (mode : String) (stride : Nat)
    (pad : PadArg) : Except String Pool2DState :=
  match resolvePad pad kernelShape.1 kernelShape.2 with
  | .error e => .error e
  | .ok p =>
    .ok { kernel := kernelShape, stride := stride, pad := p, mode := mode,
          poolFnSet := (mode = "max" || mode = "average") }

/-- Pooled value of one window in `Pool2D.forward`:
`np.max` over the window for `"max"` mode (computed on the same row-major
flattening the backward pass uses; `np.max` is order-independent), and
`np.mean` = sum divided by the full kernel area for `"average"` mode. -/
def poolVal (mode : String) (kh kw : Nat) (f : Nat → Nat → ℚ) : ℚ :=
  if mode = "max" then listMax (windowList kh kw f)
  else (sumT kh (fun m => sumT kw (fun n => f m n))) / ((kh : ℚ) * (kw : ℚ))

/-- `Pool2D.forward`.  The local `pool_fn` is bound only for `"max"` /
`"average"`; for any other mode the first loop iteration hits an unbound
`pool_fn` (an `UnboundLocalError` at forward time) — unless the loop body
never runs because an output dimension is zero, in which case the
`np.zeros` output is returned. -/
def pool2dForward (st : Pool2DState) (X : Tensor4) : Except String Tensor4 :=
  let kh := st.kernel.1
  let kw := st.kernel.2
  let outR := (X.h + 2 * st.pad.1 - kh) / st.stride + 1
  let outC := (X.w + 2 * st.pad.2 - kw) / st.stride + 1
  let Xpad := padData st.pad.1 st.pad.2 X.h X.w X.data
  if st.mode = "max" ∨ st.mode = "average" then
    .ok ⟨X.b, outR, outC, X.c, fun i row col ch =>
      poolVal st.mode kh kw (fun m n =>
        Xpad i (row * st.stride + m) (col * st.stride + n) ch)⟩
  else if outR = 0 ∨ outC = 0 then
    .ok ⟨X.b, outR, outC, X.c, fun _ _ _ _ => 0⟩
  else
    .error "UnboundLocalError: local variable pool_fn referenced before assignment"

/-- One iteration of the `Pool2D.backward` loop at output position
`(row, col)`, acting on `dX` (a zero-initialized array shaped like
`X_pad`).  For `"average"`:
`dX[:, row0:row1, col0:col1, :] += dLdY[:, row:row+1, col:col+1, :] / (kh*kw)`.
For `"max"`: the window of `X_pad` is reshaped to `(n, kh*kw, c)`,
`max_id = np.argmax(..., axis=1)` per example and channel, a one-hot mask
at `max_id` is reshaped back to the window, and
`dX[window] += mask * dLdY[:, row:row+1, col:col+1, :]`; so the cell
`(r, c)` receives `dLdY` exactly when its row-major flat position in the
window equals the argmax.  Any other mode matches neither branch and the
loop body adds nothing. -/
def poolBwdContrib (mode : String) (kh kw stride : Nat) (Xpad dLdY : T4f)
    (row col : Nat) : T4f :=
  fun i r c ch =>
    (if mode = "average" then
      (if row * stride ≤ r ∧ r < row * stride + kh ∧
          col * stride ≤ c ∧ c < col * stride + kw then
        dLdY i row col ch / ((kh : ℚ) * (kw : ℚ))
      else 0)
    else if mode = "max" then
      (if row * stride ≤ r ∧ r < row * stride + kh ∧
          col * stride ≤ c ∧ c < col * stride + kw ∧
          (r - row * stride) * kw + (c - col * stride) =
            listArgmax (windowList kh kw (fun m n =>
              Xpad i (row * stride + m) (col * stride + n) ch)) then
        dLdY i row col ch
      else 0)
    else 0)

def poolBwdStep (mode : String) (kh kw stride : Nat) (Xpad dLdY : T4f)
    (row col : Nat) (acc : T4f) : T4f :=
  fun i r c ch => acc i r c ch +
    poolBwdContrib mode kh kw stride Xpad dLdY row col i r c ch

/-- `Pool2D.backward`.  Recomputes the output dims and `X_pad` from the
cached input `X` (passed here explicitly), loops over output positions
accumulating into `dX = np.zeros_like(X_pad)`, and returns
`dX[:, pad[0] : in_rows+pad[0], pad[1] : in_cols+pad[1], :]`. -/
def pool2dBackward (st : Pool2DState) (X : Tensor4) (dLdY : T4f) : Tensor4 :=
  let kh := st.kernel.1
  let kw := st.kernel.2
  let outR := (X.h + 2 * st.pad.1 - kh) / st.stride + 1
  let outC := (X.w + 2 * st.pad.2 - kw) / st.stride + 1
  let Xpad := padData st.pad.1 st.pad.2 X.h X.w X.data
  let dX :=
    (List.range outR).foldl (fun acc row =>
      (List.range outC).foldl (fun acc2 col =>
        poolBwdStep st.mode kh kw st.stride Xpad dLdY row col acc2) acc)
      (fun _ _ _ _ => 0)
  ⟨X.b, X.h, X.w, X.c, fun i r c ch => dX i (r + st.pad.1) (c + st.pad.2) ch⟩

/-! ## Flatten -/

/-- A dense tensor of arbitrary rank: its shape and its entries flattened
in row-major order (numpy's memory layout); a reshape keeps the data and
changes only the shape. -/
structure TensorND where
  shape : List Nat
  data : List ℚ
deriving DecidableEq

/-- The `keep_dim` configuration of `Flatten`: `"first"`, `"last"`, or `-1`. -/
inductive KeepDim where
  | first : KeepDim
  | last : KeepDim
  | negOne : KeepDim
deriving DecidableEq

/-- State of a `Flatten` layer: its `keep_dim` plus `cache["in_dims"]`. -/
structure FlattenState where
  keepDim : KeepDim
  cacheInDims : List Nat
deriving DecidableEq

/-- `np.reshape` with an explicit target shape: the flat data is unchanged;
numpy raises if the total sizes disagree. -/
def reshapeND (t : TensorND) (newShape : List Nat) : Except String TensorND :=
  if newShape.prod = t.shape.prod then .ok ⟨newShape, t.data⟩
  else .error "cannot reshape array"

/-- `Flatten.forward`: caches `X.shape` in `cache["in_dims"]`, then
`keep_dim == -1` → `X.flatten().reshape(1, -1)` (shape `[1, size]`),
`"first"` → `X.reshape(X.shape[0], -1)`, `"last"` →
`X.reshape(-1, X.shape[-1])`; the `-1` extent is numpy's inferred
`size // known`. -/
def flattenForward (st : FlattenState) (X : TensorND) :
    FlattenState × TensorND :=
  let st2 : FlattenState := { st with cacheInDims := X.shape }
  match st.keepDim with
  | .negOne => (st2, ⟨[1, X.shape.prod], X.data⟩)
  | .first => (st2, ⟨[X.shape.headD 0, X.shape.prod / X.shape.headD 0], X.data⟩)
  | .last => (st2, ⟨[X.shape.prod / X.shape.getLastD 0, X.shape.getLastD 0], X.data⟩)

/-- `Flatten.backward`: `dX = dLdY.reshape(self.cache["in_dims"])`. -/
def flattenBackward (st : FlattenState) (dLdY : TensorND) :
    Except String TensorND :=
  reshapeND dLdY st.cacheInDims

/-! ## Layer factory and shared `Layer` state -/

/-- A constructed layer, as returned by the factory.  `FullyConnected`,
`Conv2D` and `Flatten` construction just stores configuration (their
parameters are lazily initialized on first forward); `Pool2D` construction
runs `pool2dInit`, which can raise. -/
inductive Layer where
  | fullyConnected (nOut : Nat) (activation weightInit : String)
  | conv2d (nOut : Nat) (kernelShape : Nat × Nat) (activation : String)
      (stride : Nat) (pad : PadArg) (weightInit : String)
  | pool2d (st : Pool2DState)
  | flatten (keepDim : KeepDim)
deriving DecidableEq

/-- `initialize_layer`: dispatch on the name tag; any unknown tag reaches
the `else` branch, which raises (the source spells the exception class
`NotimplementedError`, an undefined name, so Python actually raises a
`NameError` — either way the call fails and never returns a layer). -/
def initializeLayer (name : String) (activation weightInit : String)
    (nOut : Nat) (kernelShape : Nat × Nat) (stride : Nat) (pad : PadArg)
    (mode : String) (keepDim : KeepDim) : Except String Layer :=
  if name = "fully_connected" then
    .ok (.fullyConnected nOut activation weightInit)
  else if name = "conv2d" then
    .ok (.conv2d nOut kernelShape activation stride pad weightInit)
  else if name = "pool2d" then
    (pool2dInit kernelShape mode stride pad).map .pool2d
  else if name = "flatten" then
    .ok (.flatten keepDim)
  else
    .error ("Layer type " ++ name ++ " is not implemented")

/-- A value stored in a layer's `cache` dict: a Python empty list, a
tensor, or a shape tuple. -/
inductive CacheVal where
  | emptyList : CacheVal
  | tensor (t : TensorND) : CacheVal
  | dims (s : List Nat) : CacheVal
deriving DecidableEq

/-- The shared mutable state of a `Layer`: the three ordered string-keyed
containers. -/
structure LayerState where
  parameters : List (String × TensorND)
  cache : List (String × CacheVal)
  gradients : List (String × TensorND)
deriving DecidableEq

/-- `np.zeros_like(b)`: a tensor of the same shape with every entry `0`. -/
def zerosLike (t : TensorND) : TensorND :=
  ⟨t.shape, t.data.map (fun _ => 0)⟩

/-- `Layer.clear_gradients`: rebuild `cache` with every key mapped to `[]`
and `gradients` with every key mapped to `np.zeros_like` of its old value;
`parameters` is not touched. -/
def clearGradients (st : LayerState) : LayerState :=
  { st with
    cache := st.cache.map (fun p => (p.1, CacheVal.emptyList)),
    gradients := st.gradients.map (fun p => (p.1, zerosLike p.2)) }

/-! ## Claim theorems -/

/-- C5: Conv2D output spatial size.  For every input, the output spatial
dimensions are `out_h = floor((H + 2*pad_h - kh)/stride) + 1` (stated both
as the Nat floor-division formula and as the floor characterization
`stride*(out_h - 1) ≤ H + 2*pad_h - kh < stride*out_h` over ℤ), and
concretely a `7×7` input with a `3×3` kernel at stride `2` gives a `3×3`
output under pad `"valid"` (resolved to `(0,0)`) and a `4×4` output under
pad `"same"` (resolved to `(1,1)`). -/
theorem conv2d_output_spatial_size (act : T4f → T4f) (W : T4f)
    (kh kw nOut : Nat) (bias : Nat → ℚ) (stride : Nat) (pad : Nat × Nat)
    (X : Tensor4) (hs : 0 < stride) (hkh : kh ≤ X.h + 2 * pad.1)
    (hkw : kw ≤ X.w + 2 * pad.2) :
    ((conv2dForward act W kh kw nOut bias stride pad X).out.h
        = (X.h + 2 * pad.1 - kh) / stride + 1
      ∧ (conv2dForward act W kh kw nOut bias stride pad X).out.w
        = (X.w + 2 * pad.2 - kw) / stride + 1)
    ∧ ((stride : ℤ) *
          (((conv2dForward act W kh kw nOut bias stride pad X).out.h : ℤ) - 1)
        ≤ (X.h : ℤ) + 2 * (pad.1 : ℤ) - (kh : ℤ)
      ∧ (X.h : ℤ) + 2 * (pad.1 : ℤ) - (kh : ℤ)
        < (stride : ℤ) *
            ((conv2dForward act W kh kw nOut bias stride pad X).out.h : ℤ)
      ∧ (stride : ℤ) *
          (((conv2dForward act W kh kw nOut bias stride pad X).out.w : ℤ) - 1)
        ≤ (X.w : ℤ) + 2 * (pad.2 : ℤ) - (kw : ℤ)
      ∧ (X.w : ℤ) + 2 * (pad.2 : ℤ) - (kw : ℤ)
        < (stride : ℤ) *
            ((conv2dForward act W kh kw nOut bias stride pad X).out.w : ℤ))
    ∧ (resolvePad PadArg.valid 3 3 = .ok (0, 0)
      ∧ (conv2dForward act W 3 3 nOut bias 2 (0, 0)
          ⟨1, 7, 7, 1, fun _ _ _ _ => 0⟩).out.h = 3
      ∧ (conv2dForward act W 3 3 nOut bias 2 (0, 0)
          ⟨1, 7, 7, 1, fun _ _ _ _ => 0⟩).out.w = 3)
    ∧ (resolvePad PadArg.same 3 3 = .ok (1, 1)
      ∧ (conv2dForward act W 3 3 nOut bias 2 (1, 1)
          ⟨1, 7, 7, 1, fun _ _ _ _ => 0⟩).out.h = 4
      ∧ (conv2dForward act W 3 3 nOut bias 2 (1, 1)
          ⟨1, 7, 7, 1, fun _ _ _ _ => 0⟩).out.w = 4) := by
  have houtH : (conv2dForward act W kh kw nOut bias stride pad X).out.h
      = (X.h + 2 * pad.1 - kh) / stride + 1 := rfl
  have houtW : (conv2dForward act W kh kw nOut bias stride pad X).out.w
      = (X.w + 2 * pad.2 - kw) / stride + 1 := rfl
  have floorChar : ∀ (dd : Nat),
      (stride : ℤ) * ((((dd / stride + 1 : Nat)) : ℤ) - 1) ≤ (dd : ℤ)
      ∧ ((dd : ℤ) < (stride : ℤ) * ((dd / stride + 1 : Nat) : ℤ)) := by
    intro dd
    have hdm := Nat.div_add_mod dd stride
    have hml := Nat.mod_lt dd hs
    constructor
    · have h1 : stride * (dd / stride) ≤ dd := by
        calc stride * (dd / stride) ≤ stride * (dd / stride) + dd % stride :=
              Nat.le_add_right _ _
          _ = dd := hdm
      calc (stride : ℤ) * (((dd / stride + 1 : Nat) : ℤ) - 1)
          = ((stride * (dd / stride) : Nat) : ℤ) := by push_cast; ring
        _ ≤ (dd : ℤ) := by exact_mod_cast h1
    · have h2 : dd < stride * (dd / stride + 1) := by
        have : stride * (dd / stride + 1) = stride * (dd / stride) + stride := by ring
        rw [this]
        linarith [hdm, hml]
      calc (dd : ℤ) < ((stride * (dd / stride + 1) : Nat) : ℤ) := by exact_mod_cast h2
        _ = (stride : ℤ) * ((dd / stride + 1 : Nat) : ℤ) := by push_cast; ring
  have hDh : (((X.h + 2 * pad.1 - kh : Nat)) : ℤ)
      = (X.h : ℤ) + 2 * (pad.1 : ℤ) - (kh : ℤ) := by omega
  have hDw : (((X.w + 2 * pad.2 - kw : Nat)) : ℤ)
      = (X.w : ℤ) + 2 * (pad.2 : ℤ) - (kw : ℤ) := by omega
  refine ⟨⟨houtH, houtW⟩, ⟨?_, ?_, ?_, ?_⟩, ⟨rfl, rfl, rfl⟩, ⟨rfl, rfl, rfl⟩⟩
  · rw [houtH, ← hDh]; exact (floorChar _).1
  · rw [houtH, ← hDh]; exact (floorChar _).2
  · rw [houtW, ← hDw]; exact (floorChar _).1
  · rw [houtW, ← hDw]; exact (floorChar _).2

theorem conv2d_output_spatial_size_witness :
    (0 : Nat) < 2
    ∧ (conv2dForward (fun z => z) (fun _ _ _ _ => 0) 3 3 1 (fun _ => 0) 2
        (0, 0) ⟨1, 7, 7, 1, fun _ _ _ _ => 0⟩).out.h = 3
    ∧ (conv2dForward (fun z => z) (fun _ _ _ _ => 0) 3 3 1 (fun _ => 0) 2
        (1, 1) ⟨1, 7, 7, 1, fun _ _ _ _ => 0⟩).out.h = 4 := by
  have h := conv2d_output_spatial_size (fun z => z) (fun _ _ _ _ => 0) 3 3 1
    (fun _ => 0) 2 (0, 0) ⟨1, 7, 7, 1, fun _ _ _ _ => 0⟩
    (by decide) (by decide) (by decide)
  exact ⟨by decide, h.2.2.1.2.1, h.2.2.2.2.1⟩

/-- C7: the layer factory fails fast on every unknown name tag, raising
rather than silently returning without a layer.  (In the source the raise
spells the exception class `NotimplementedError`, an undefined name, so
the Python call actually raises a `NameError`; either way the factory
raises and never returns.) -/
theorem initialize_layer_unknown_name (name activation weightInit : String)
    (nOut : Nat) (kernelShape : Nat × Nat) (stride : Nat) (pad : PadArg)
    (mode : String) (keepDim : KeepDim)
    (h1 : name ≠ "fully_connected") (h2 : name ≠ "conv2d")
    (h3 : name ≠ "pool2d") (h4 : name ≠ "flatten") :
    initializeLayer name activation weightInit nOut kernelShape stride pad
        mode keepDim
      = .error ("Layer type " ++ name ++ " is not implemented") := by
  unfold initializeLayer
  rw [if_neg h1, if_neg h2, if_neg h3, if_neg h4]

theorem initialize_layer_unknown_name_witness :
    initializeLayer "batchnorm" "relu" "xavier_uniform" 4 (3, 3) 1
        PadArg.valid "max" KeepDim.first
      = .error "Layer type batchnorm is not implemented" := by
  exact initialize_layer_unknown_name "batchnorm" "relu" "xavier_uniform" 4
    (3, 3) 1 PadArg.valid "max" KeepDim.first
    (by decide) (by decide) (by decide) (by decide)

/-- C6 counterexample: constructing a `Pool2D` with the invalid mode
`"median"` (and a valid pad) does NOT raise — `Pool2D.__init__` validates
only the pad and has no `else` branch on `mode` — so the claim that an
invalid mode is rejected eagerly at construction is false. -/
theorem pool2d_invalid_mode_ctor_succeeds :
    (pool2dInit (2, 2) "median" 1 (PadArg.intVal 0)).isOk = true := rfl

/-- C6 amended: constructing a `Pool2D` with a mode outside
`{"max","average"}` (and a valid integer pad) succeeds, storing the mode
unvalidated with the `pool_fn` attribute left unset; the error surfaces
only at the first `forward` call, whose loop body hits the unbound local
`pool_fn`. -/
theorem pool2d_invalid_mode_error_deferred_to_forward
    (kernelShape : Nat × Nat) (mode : String) (stride p : Nat) (X : Tensor4)
    (h1 : mode ≠ "max") (h2 : mode ≠ "average") :
    pool2dInit kernelShape mode stride (PadArg.intVal p)
        = .ok { kernel := kernelShape, stride := stride, pad := (p, p),
                mode := mode, poolFnSet := false }
      ∧ ∀ st, pool2dInit kernelShape mode stride (PadArg.intVal p) = .ok st →
          pool2dForward st X =
            .error "UnboundLocalError: local variable pool_fn referenced before assignment" := by
  have hnot : ¬(mode = "max" ∨ mode = "average") := by
    rintro (h | h)
    · exact h1 h
    · exact h2 h
  have hinit : pool2dInit kernelShape mode stride (PadArg.intVal p)
      = .ok { kernel := kernelShape, stride := stride, pad := (p, p),
              mode := mode, poolFnSet := false } := by
    simp only [pool2dInit, resolvePad]
    have : (mode = "max" || mode = "average") = false := by
      simp [h1, h2]
    rw [this]
  refine ⟨hinit, ?_⟩
  intro st hst
  rw [hinit] at hst
  injection hst with hst3
  subst hst3
  simp [pool2dForward, hnot]

theorem pool2d_invalid_mode_error_deferred_to_forward_witness :
    pool2dInit (2, 2) "median" 1 (PadArg.intVal 0)
        = .ok { kernel := (2, 2), stride := 1, pad := (0, 0),
                mode := "median", poolFnSet := false }
      ∧ pool2dForward
          { kernel := (2, 2), stride := 1, pad := (0, 0),
            mode := "median", poolFnSet := false }
          ⟨1, 2, 2, 1, fun _ _ _ _ => 0⟩ =
        .error "UnboundLocalError: local variable pool_fn referenced before assignment" := by
  have h := pool2d_invalid_mode_error_deferred_to_forward (2, 2) "median" 1 0
    ⟨1, 2, 2, 1, fun _ _ _ _ => 0⟩ (by decide) (by decide)
  exact ⟨h.1, h.2 _ h.1⟩

theorem getLastD_mem (l : List Nat) (hl : l ≠ []) : l.getLastD 0 ∈ l := by
  cases l with
  | nil => exact absurd rfl hl
  | cons a t =>
    rw [List.getLastD_eq_getLast?, List.getLast?_eq_getLast (a :: t) (by simp)]
    simp [List.getLast_mem]

/-- C8: Flatten round-trip.  `forward` caches the input's full shape and
`backward` reshapes `dLdY` back to exactly that cached shape, so applying
`backward` to the tensor `forward` returned (same flat data, reshaped)
reproduces `X` exactly — shape and elements, with no information loss —
for every `keep_dim` configuration. -/
theorem flatten_round_trip (st : FlattenState) (X : TensorND)
    (hne : X.shape ≠ []) :
    flattenBackward (flattenForward st X).1 (flattenForward st X).2
      = .ok X := by
  obtain ⟨kd, cd⟩ := st
  obtain ⟨shape, data⟩ := X
  cases kd with
  | negOne =>
    simp [flattenForward, flattenBackward, reshapeND]
  | first =>
    cases shape with
    | nil => exact absurd rfl hne
    | cons s rest =>
      have hcond : ((s :: rest) : List Nat).prod
          = ([(s :: rest).headD 0,
              (s :: rest).prod / (s :: rest).headD 0] : List Nat).prod := by
        simp only [List.headD_cons, List.prod_cons, List.prod_nil, mul_one]
        rcases Nat.eq_zero_or_pos s with hs | hs
        · subst hs; simp
        · rw [Nat.mul_div_cancel_left _ hs]
      simp only [flattenForward, flattenBackward, reshapeND]
      rw [if_pos hcond]
  | last =>
    cases shape with
    | nil => exact absurd rfl hne
    | cons s rest =>
      have hmem : (s :: rest).getLastD 0 ∈ s :: rest := getLastD_mem _ (by simp)
      have hdvd2 : (s :: rest).getLastD 0 ∣ (s :: rest).prod := List.dvd_prod hmem
      have hcond : ((s :: rest) : List Nat).prod
          = ([(s :: rest).prod / (s :: rest).getLastD 0,
              (s :: rest).getLastD 0] : List Nat).prod := by
        simp only [List.prod_cons, List.prod_nil, mul_one]
        rcases Nat.eq_zero_or_pos ((s :: rest).getLastD 0) with hz | hz
        · have hmem0 : (0 : Nat) ∈ s :: rest := hz ▸ hmem
          have h0 : ((s :: rest) : List Nat).prod = 0 := List.prod_eq_zero hmem0
          rw [List.prod_cons] at h0
          rw [hz, h0]
        · exact (Nat.div_mul_cancel hdvd2).symm
      simp only [flattenForward, flattenBackward, reshapeND]
      rw [if_pos hcond]

theorem flatten_round_trip_witness :
    ([2, 3] : List Nat) ≠ []
    ∧ flattenBackward
        (flattenForward ⟨KeepDim.first, []⟩ ⟨[2, 3], [1, 2, 3, 4, 5, 6]⟩).1
        (flattenForward ⟨KeepDim.first, []⟩ ⟨[2, 3], [1, 2, 3, 4, 5, 6]⟩).2
      = .ok ⟨[2, 3], [1, 2, 3, 4, 5, 6]⟩ := by
  exact ⟨by decide,
    flatten_round_trip ⟨KeepDim.first, []⟩ ⟨[2, 3], [1, 2, 3, 4, 5, 6]⟩ (by decide)⟩

/-- C9: `clear_gradients` frame property.  For every layer state, it leaves
`parameters` untouched (keys and values), rebuilds `cache` with the same
keys all mapped to the empty list, and rebuilds `gradients` with the same
keys where each tensor keeps its shape but has every entry zero. -/
theorem clear_gradients_frame (st : LayerState) :
    (clearGradients st).parameters = st.parameters
    ∧ (clearGradients st).cache.map Prod.fst = st.cache.map Prod.fst
    ∧ (∀ kv ∈ (clearGradients st).cache, kv.2 = CacheVal.emptyList)
    ∧ (clearGradients st).gradients.map Prod.fst = st.gradients.map Prod.fst
    ∧ (clearGradients st).gradients.length = st.gradients.length
    ∧ (∀ j, j < st.gradients.length →
        ((clearGradients st).gradients.getD j ("", ⟨[], []⟩)).2.shape
            = (st.gradients.getD j ("", ⟨[], []⟩)).2.shape
          ∧ ∀ q ∈ ((clearGradients st).gradients.getD j ("", ⟨[], []⟩)).2.data,
              q = 0) := by
  refine ⟨rfl, ?_, ?_, ?_, ?_, ?_⟩
  · simp [clearGradients]
  · intro kv hkv
    simp only [clearGradients, List.mem_map] at hkv
    obtain ⟨p, _, hp⟩ := hkv
    rw [← hp]
  · simp [clearGradients]
  · simp [clearGradients]
  · intro j hj
    have hget : (clearGradients st).gradients.getD j ("", ⟨[], []⟩)
        = ((st.gradients.getD j ("", ⟨[], []⟩)).1,
           zerosLike (st.gradients.getD j ("", ⟨[], []⟩)).2) := by
      simp only [clearGradients]
      rw [List.getD_eq_getElem?_getD, List.getElem?_map,
        List.getD_eq_getElem?_getD]
      cases hx : st.gradients[j]? with
      | none => rfl
      | some p => rfl
    constructor
    · rw [hget]; rfl
    · intro q hq
      rw [hget] at hq
      simp only [zerosLike] at hq
      obtain ⟨_, _, hz⟩ := List.mem_map.mp hq
      exact hz.symm

theorem clear_gradients_frame_witness :
    (clearGradients
        ⟨[("W", ⟨[2], [5, 7]⟩)], [("Z", CacheVal.tensor ⟨[1], [3]⟩)],
          [("W", ⟨[2], [5, 7]⟩)]⟩).parameters
      = [("W", ⟨[2], [5, 7]⟩)]
    ∧ ((clearGradients
        ⟨[("W", ⟨[2], [5, 7]⟩)], [("Z", CacheVal.tensor ⟨[1], [3]⟩)],
          [("W", ⟨[2], [5, 7]⟩)]⟩).gradients.getD 0 ("", ⟨[], []⟩)).2.shape
      = [2] := by
  have h := clear_gradients_frame
    ⟨[("W", ⟨[2], [5, 7]⟩)], [("Z", CacheVal.tensor ⟨[1], [3]⟩)],
      [("W", ⟨[2], [5, 7]⟩)]⟩
  exact ⟨h.1, (h.2.2.2.2.2 0 (by decide)).1⟩

/-- C1: Conv2D forward.  For every batch example, output row/column and
output channel (in range), the cached pre-activation `Z` at that position
equals the sum over the `kh×kw×n_in` receptive-field window of the
zero-padded input (window top-left offset by `stride` per output step) of
the elementwise product with the kernel slice `W[:,:,:,channel]`, plus
that channel's bias; the returned output is `activation(Z)`; and the
cache holds `Z` and the unpadded `X`. -/
theorem conv2d_forward_spec (act : T4f → T4f) (W : T4f) (kh kw nOut : Nat)
    (bias : Nat → ℚ) (stride : Nat) (pad : Nat × Nat) (X : Tensor4)
    (i row col ch : Nat) (hi : i < X.b)
    (hrow : row < (X.h + 2 * pad.1 - kh) / stride + 1)
    (hcol : col < (X.w + 2 * pad.2 - kw) / stride + 1)
    (hch : ch < nOut) :
    (conv2dForward act W kh kw nOut bias stride pad X).cacheZ.data i row col ch
        = (∑ m in Finset.range kh, ∑ n in Finset.range kw,
            ∑ cin in Finset.range X.c,
              padData pad.1 pad.2 X.h X.w X.data i (row * stride + m)
                  (col * stride + n) cin * W m n cin ch)
          + bias ch
    ∧ (conv2dForward act W kh kw nOut bias stride pad X).out.data
        = act (conv2dForward act W kh kw nOut bias stride pad X).cacheZ.data
    ∧ (conv2dForward act W kh kw nOut bias stride pad X).cacheX = X
    ∧ (conv2dForward act W kh kw nOut bias stride pad X).out.b = X.b
    ∧ (conv2dForward act W kh kw nOut bias stride pad X).out.h
        = (X.h + 2 * pad.1 - kh) / stride + 1
    ∧ (conv2dForward act W kh kw nOut bias stride pad X).out.w
        = (X.w + 2 * pad.2 - kw) / stride + 1
    ∧ (conv2dForward act W kh kw nOut bias stride pad X).out.c = nOut := by
  refine ⟨?_, rfl, rfl, rfl, rfl, rfl, rfl⟩
  simp only [conv2dForward, sumT_eq_finset_sum]

theorem conv2d_forward_spec_witness :
    (0 : Nat) < 1
    ∧ (conv2dForward (fun z => z) (fun _ _ _ _ => 3) 1 1 1 (fun _ => 1) 1
        (0, 0) ⟨1, 1, 1, 1, fun _ _ _ _ => 2⟩).cacheZ.data 0 0 0 0 = 7 := by
  refine ⟨by decide, ?_⟩
  have h := (conv2d_forward_spec (fun z => z) (fun _ _ _ _ => 3) 1 1 1
    (fun _ => 1) 1 (0, 0) ⟨1, 1, 1, 1, fun _ _ _ _ => 2⟩ 0 0 0 0
    (by decide) (by decide) (by decide) (by decide)).1
  rw [h]
  norm_num [padData]

/-- Closed form of the `Pool2D.backward` double loop: starting from
`np.zeros_like(X_pad)`, the accumulated array is the sum over all output
positions of the per-position contribution. -/
theorem pool2d_fold_closed (mode : String) (kh kw stride : Nat)
    (Xpad dLdY : T4f) (outR outC : Nat) :
    (List.range outR).foldl (fun acc row =>
      (List.range outC).foldl (fun acc2 col =>
        poolBwdStep mode kh kw stride Xpad dLdY row col acc2) acc)
      (fun _ _ _ _ => 0)
    = fun i r c ch => sumT outR (fun row => sumT outC (fun col =>
        poolBwdContrib mode kh kw stride Xpad dLdY row col i r c ch)) := by
  have hinner : ∀ (row : Nat) (acc : T4f),
      (List.range outC).foldl (fun acc2 col =>
        poolBwdStep mode kh kw stride Xpad dLdY row col acc2) acc
      = fun i r c ch => acc i r c ch + sumT outC (fun col =>
          poolBwdContrib mode kh kw stride Xpad dLdY row col i r c ch) := by
    intro row acc
    exact foldl_add4 _ _ (fun a j => rfl) outC acc
  have houter := foldl_add4
    (fun acc row => (List.range outC).foldl (fun acc2 col =>
      poolBwdStep mode kh kw stride Xpad dLdY row col acc2) acc)
    (fun row i r c ch => sumT outC (fun col =>
      poolBwdContrib mode kh kw stride Xpad dLdY row col i r c ch))
    (fun a j => hinner j a) outR (fun _ _ _ _ => 0)
  rw [houter]
  funext i r c ch
  simp

/-- C4: Pool2D average mode.  Forward takes, per output window and channel,
the mean over the `kh×kw` window of the zero-padded input — the divisor is
always the full kernel area `kh*kw`, padded zeros included; backward
distributes `dLdY` at each output position evenly (divided by `kh*kw`)
additively into every cell of the corresponding window, accumulating
across overlapping windows, and crops back to the unpadded extent. -/
theorem pool2d_average_spec (kernel : Nat × Nat) (stride : Nat)
    (pad : Nat × Nat) (X : Tensor4) (dLdY : T4f) :
    (∃ Y, pool2dForward ⟨kernel, stride, pad, "average", true⟩ X = .ok Y
      ∧ Y.b = X.b
      ∧ Y.h = (X.h + 2 * pad.1 - kernel.1) / stride + 1
      ∧ Y.w = (X.w + 2 * pad.2 - kernel.2) / stride + 1
      ∧ Y.c = X.c
      ∧ ∀ i row col ch, Y.data i row col ch =
          (∑ m in Finset.range kernel.1, ∑ n in Finset.range kernel.2,
            padData pad.1 pad.2 X.h X.w X.data i (row * stride + m)
              (col * stride + n) ch)
          / ((kernel.1 : ℚ) * (kernel.2 : ℚ)))
    ∧ (∀ i r c ch,
        (pool2dBackward ⟨kernel, stride, pad, "average", true⟩ X dLdY).data
            i r c ch
          = ∑ row in Finset.range ((X.h + 2 * pad.1 - kernel.1) / stride + 1),
              ∑ col in Finset.range ((X.w + 2 * pad.2 - kernel.2) / stride + 1),
                (if row * stride ≤ r + pad.1 ∧ r + pad.1 < row * stride + kernel.1
                    ∧ col * stride ≤ c + pad.2 ∧ c + pad.2 < col * stride + kernel.2
                then dLdY i row col ch / ((kernel.1 : ℚ) * (kernel.2 : ℚ))
                else 0))
    ∧ (pool2dBackward ⟨kernel, stride, pad, "average", true⟩ X dLdY).b = X.b
    ∧ (pool2dBackward ⟨kernel, stride, pad, "average", true⟩ X dLdY).h = X.h
    ∧ (pool2dBackward ⟨kernel, stride, pad, "average", true⟩ X dLdY).w = X.w
    ∧ (pool2dBackward ⟨kernel, stride, pad, "average", true⟩ X dLdY).c = X.c := by
  refine ⟨⟨_, rfl, rfl, rfl, rfl, rfl, ?_⟩, ?_, rfl, rfl, rfl, rfl⟩
  · intro i row col ch
    simp [poolVal, sumT_eq_finset_sum]
  · intro i r c ch
    simp only [pool2dBackward]
    rw [pool2d_fold_closed]
    simp [poolBwdContrib, sumT_eq_finset_sum]

theorem pool2d_average_spec_witness :
    (∃ Y, pool2dForward ⟨(2, 2), 1, (0, 0), "average", true⟩
          ⟨1, 2, 2, 1, fun _ r c _ =>
            if r = 0 ∧ c = 0 then 1 else if r = 0 ∧ c = 1 then 3
            else if r = 1 ∧ c = 0 then 2 else 0⟩ = .ok Y
      ∧ Y.data 0 0 0 0 = 3 / 2)
    ∧ (pool2dBackward ⟨(2, 2), 1, (0, 0), "average", true⟩
          ⟨1, 2, 2, 1, fun _ r c _ =>
            if r = 0 ∧ c = 0 then 1 else if r = 0 ∧ c = 1 then 3
            else if r = 1 ∧ c = 0 then 2 else 0⟩
          (fun _ _ _ _ => 4)).data 0 0 0 0 = 1 := by
  have h := pool2d_average_spec ((2 : Nat), (2 : Nat)) 1 ((0 : Nat), (0 : Nat))
    ⟨1, 2, 2, 1, fun _ r c _ =>
      if r = 0 ∧ c = 0 then 1 else if r = 0 ∧ c = 1 then 3
      else if r = 1 ∧ c = 0 then 2 else 0⟩ (fun _ _ _ _ => 4)
  obtain ⟨⟨Y, hY, _, _, _, _, hdata⟩, hbwd, _⟩ := h
  constructor
  · refine ⟨Y, hY, ?_⟩
    rw [hdata 0 0 0 0]
    norm_num [padData, Finset.sum_range_succ]
  · rw [hbwd 0 0 0 0]
    norm_num [Finset.sum_range_succ]
    decide

/-- The single `2×2` window `[[1,3],[2,0]]` of the spec's Pool2D example, as
a `[1,2,2,1]` tensor. -/
def poolExampleX : Tensor4 :=
  ⟨1, 2, 2, 1, fun _ r c _ =>
    if r = 0 ∧ c = 0 then 1 else if r = 0 ∧ c = 1 then 3
    else if r = 1 ∧ c = 0 then 2 else 0⟩

/-- C3: Pool2D backward in max mode.  (1) every output position routes its
entire upstream gradient additively to exactly the cell of its (padded)
window whose row-major flat position equals the `np.argmax` of the
flattened window, all other cells receiving zero from that position;
(2) that argmax is the first occurrence of the window maximum in row-major
scan order (earlier positions are strictly smaller); (3) forward's output
is the max of the same padded window; (4) concretely, for the single
window `[[1,3],[2,0]]` forward returns `3`, and backward with upstream
gradient `5` routes the entire `5` to the position holding `3` and `0` to
the other three positions. -/
theorem pool2d_max_backward_spec (kernel : Nat × Nat) (stride : Nat)
    (pad : Nat × Nat) (X : Tensor4) (dLdY : T4f) :
    (∀ i r c ch,
      (pool2dBackward ⟨kernel, stride, pad, "max", true⟩ X dLdY).data i r c ch
        = ∑ row in Finset.range ((X.h + 2 * pad.1 - kernel.1) / stride + 1),
            ∑ col in Finset.range ((X.w + 2 * pad.2 - kernel.2) / stride + 1),
              (if row * stride ≤ r + pad.1 ∧ r + pad.1 < row * stride + kernel.1
                  ∧ col * stride ≤ c + pad.2 ∧ c + pad.2 < col * stride + kernel.2
                  ∧ (r + pad.1 - row * stride) * kernel.2
                      + (c + pad.2 - col * stride)
                    = listArgmax (windowList kernel.1 kernel.2 (fun m n =>
                        padData pad.1 pad.2 X.h X.w X.data i (row * stride + m)
                          (col * stride + n) ch))
                then dLdY i row col ch else 0))
    ∧ (∀ i row col ch, 0 < kernel.1 * kernel.2 →
        (windowList kernel.1 kernel.2 (fun m n =>
            padData pad.1 pad.2 X.h X.w X.data i (row * stride + m)
              (col * stride + n) ch)).getD
          (listArgmax (windowList kernel.1 kernel.2 (fun m n =>
            padData pad.1 pad.2 X.h X.w X.data i (row * stride + m)
              (col * stride + n) ch))) 0
          = listMax (windowList kernel.1 kernel.2 (fun m n =>
              padData pad.1 pad.2 X.h X.w X.data i (row * stride + m)
                (col * stride + n) ch))
        ∧ ∀ p, p < listArgmax (windowList kernel.1 kernel.2 (fun m n =>
              padData pad.1 pad.2 X.h X.w X.data i (row * stride + m)
                (col * stride + n) ch)) →
            (windowList kernel.1 kernel.2 (fun m n =>
              padData pad.1 pad.2 X.h X.w X.data i (row * stride + m)
                (col * stride + n) ch)).getD p 0
              < listMax (windowList kernel.1 kernel.2 (fun m n =>
                  padData pad.1 pad.2 X.h X.w X.data i (row * stride + m)
                    (col * stride + n) ch)))
    ∧ (∃ Y, pool2dForward ⟨kernel, stride, pad, "max", true⟩ X = .ok Y
        ∧ ∀ i row col ch, Y.data i row col ch
            = listMax (windowList kernel.1 kernel.2 (fun m n =>
                padData pad.1 pad.2 X.h X.w X.data i (row * stride + m)
                  (col * stride + n) ch)))
    ∧ (∃ Y, pool2dForward ⟨(2, 2), 1, (0, 0), "max", true⟩ poolExampleX = .ok Y
        ∧ Y.data 0 0 0 0 = 3)
    ∧ ((pool2dBackward ⟨(2, 2), 1, (0, 0), "max", true⟩ poolExampleX
          (fun _ _ _ _ => 5)).data 0 0 0 0 = 0
      ∧ (pool2dBackward ⟨(2, 2), 1, (0, 0), "max", true⟩ poolExampleX
          (fun _ _ _ _ => 5)).data 0 0 1 0 = 5
      ∧ (pool2dBackward ⟨(2, 2), 1, (0, 0), "max", true⟩ poolExampleX
          (fun _ _ _ _ => 5)).data 0 1 0 0 = 0
      ∧ (pool2dBackward ⟨(2, 2), 1, (0, 0), "max", true⟩ poolExampleX
          (fun _ _ _ _ => 5)).data 0 1 1 0 = 0) := by
  refine ⟨?_, ?_, ⟨_, rfl, ?_⟩, ⟨_, rfl, ?_⟩, ?_, ?_, ?_, ?_⟩
  · intro i r c ch
    simp only [pool2dBackward]
    rw [pool2d_fold_closed]
    simp [poolBwdContrib, sumT_eq_finset_sum]
  · intro i row col ch hpos
    have hne : windowList kernel.1 kernel.2 (fun m n =>
        padData pad.1 pad.2 X.h X.w X.data i (row * stride + m)
          (col * stride + n) ch) ≠ [] := by
      have hlen : (windowList kernel.1 kernel.2 (fun m n =>
          padData pad.1 pad.2 X.h X.w X.data i (row * stride + m)
            (col * stride + n) ch)).length = kernel.1 * kernel.2 := by
        simp [windowList]
      exact List.length_pos.mp (by rw [hlen]; exact hpos)
    exact listArgmax_first _ hne
  · intro i row col ch
    simp [poolVal]
  · norm_num [poolVal, windowList, padData, poolExampleX, List.range_succ,
      listMax, max_def]
  · norm_num [pool2dBackward, poolBwdStep, poolBwdContrib, padData,
      poolExampleX, windowList, listArgmax, amaxAux, List.range_succ]
    decide
  · norm_num [pool2dBackward, poolBwdStep, poolBwdContrib, padData,
      poolExampleX, windowList, listArgmax, amaxAux, List.range_succ]
    decide
  · norm_num [pool2dBackward, poolBwdStep, poolBwdContrib, padData,
      poolExampleX, windowList, listArgmax, amaxAux, List.range_succ]
    decide
  · norm_num [pool2dBackward, poolBwdStep, poolBwdContrib, padData,
      poolExampleX, windowList, listArgmax, amaxAux, List.range_succ]
    decide

theorem pool2d_max_backward_spec_witness :
    (0 : Nat) < 2 * 2
    ∧ (windowList 2 2 (fun m n =>
        padData 0 0 2 2 poolExampleX.data 0 (0 * 1 + m) (0 * 1 + n) 0)).getD
        (listArgmax (windowList 2 2 (fun m n =>
          padData 0 0 2 2 poolExampleX.data 0 (0 * 1 + m) (0 * 1 + n) 0))) 0
      = listMax (windowList 2 2 (fun m n =>
          padData 0 0 2 2 poolExampleX.data 0 (0 * 1 + m) (0 * 1 + n) 0))
    ∧ (pool2dBackward ⟨(2, 2), 1, (0, 0), "max", true⟩ poolExampleX
        (fun _ _ _ _ => 5)).data 0 0 1 0 = 5 := by
  have h := pool2d_max_backward_spec ((2 : Nat), (2 : Nat)) 1
    ((0 : Nat), (0 : Nat)) poolExampleX (fun _ _ _ _ => 5)
  exact ⟨by decide, (h.2.1 0 0 0 0 (by decide)).1, h.2.2.2.2.2.1⟩

/-- C10: Pool2D max mode with nonzero padding, every real cell strictly
negative.  For a `1×1` input holding `x < 0`, kernel `2×2`, stride `1`,
pad `1`: every window of the padded input consists of zeros (padding) and
the single negative real cell, so forward returns `0` (the padding value)
at all four output positions, and backward routes each output position's
entire upstream gradient to a padded cell, which the final crop discards —
the returned input gradient is `0` regardless of `dLdY`. -/
theorem pool2d_max_padding_all_negative (x : ℚ) (hx : x < 0) (dLdY : T4f) :
    (∃ Y, pool2dForward ⟨(2, 2), 1, (1, 1), "max", true⟩
          ⟨1, 1, 1, 1, fun _ _ _ _ => x⟩ = .ok Y
      ∧ Y.h = 2 ∧ Y.w = 2
      ∧ ∀ row col, row < 2 → col < 2 → Y.data 0 row col 0 = 0)
    ∧ (pool2dBackward ⟨(2, 2), 1, (1, 1), "max", true⟩
        ⟨1, 1, 1, 1, fun _ _ _ _ => x⟩ dLdY).data 0 0 0 0 = 0 := by
  have hsne : ("max" : String) ≠ "average" := by decide
  constructor
  · refine ⟨_, rfl, ?_, ?_, ?_⟩
    · norm_num
    · norm_num
    · intro row col hrow hcol
      interval_cases row <;> interval_cases col <;>
        norm_num [poolVal, windowList, padData, List.range_succ, listMax,
          max_def, hx.le, not_le.mpr hx]
  · norm_num [pool2dBackward, poolBwdStep, poolBwdContrib, padData,
      windowList, listArgmax, amaxAux, List.range_succ, hx, lt_asymm hx, hsne]

theorem pool2d_max_padding_all_negative_witness :
    (-1 : ℚ) < 0
    ∧ (pool2dBackward ⟨(2, 2), 1, (1, 1), "max", true⟩
        ⟨1, 1, 1, 1, fun _ _ _ _ => -1⟩ (fun _ _ _ _ => 7)).data 0 0 0 0 = 0 := by
  exact ⟨by norm_num,
    (pool2d_max_padding_all_negative (-1) (by norm_num) (fun _ _ _ _ => 7)).2⟩

/-- Closed form of the `Conv2D.backward` triple loop: starting from the zero
pair `(dX_pad, dW)`, the accumulated arrays are the sums over all
`(row, col, channel)` iterations of the per-iteration contributions. -/
theorem conv2d_fold_closed (W dZ Xpad : T4f) (kh kw stride nB outR outC nOut : Nat) :
    (List.range outR).foldl (fun acc row =>
      (List.range outC).foldl (fun acc2 col =>
        (List.range nOut).foldl (fun acc3 ch =>
          convBwdStep W dZ Xpad kh kw stride nB row col ch acc3) acc2) acc)
      ((fun _ _ _ _ => 0), (fun _ _ _ _ => 0))
    = (fun i r c cc => sumT outR (fun row => sumT outC (fun col =>
          sumT nOut (fun ch =>
            convBwdContribX W dZ kh kw stride row col ch i r c cc))),
       fun m n cin cc => sumT outR (fun row => sumT outC (fun col =>
          sumT nOut (fun ch =>
            convBwdContribW Xpad dZ stride nB row col ch m n cin cc)))) := by
  have hinner : ∀ (row col : Nat) (acc : T4f × T4f),
      (List.range nOut).foldl (fun acc3 ch =>
        convBwdStep W dZ Xpad kh kw stride nB row col ch acc3) acc
      = (fun i r c cc => acc.1 i r c cc + sumT nOut (fun ch =>
          convBwdContribX W dZ kh kw stride row col ch i r c cc),
         fun m n cin cc => acc.2 m n cin cc + sumT nOut (fun ch =>
          convBwdContribW Xpad dZ stride nB row col ch m n cin cc)) := by
    intro row col acc
    exact foldl_pair_add4 _ _ _ (fun a j => rfl) nOut acc
  have hmid : ∀ (row : Nat) (acc : T4f × T4f),
      (List.range outC).foldl (fun acc2 col =>
        (List.range nOut).foldl (fun acc3 ch =>
          convBwdStep W dZ Xpad kh kw stride nB row col ch acc3) acc2) acc
      = (fun i r c cc => acc.1 i r c cc + sumT outC (fun col =>
          sumT nOut (fun ch =>
            convBwdContribX W dZ kh kw stride row col ch i r c cc)),
         fun m n cin cc => acc.2 m n cin cc + sumT outC (fun col =>
          sumT nOut (fun ch =>
            convBwdContribW Xpad dZ stride nB row col ch m n cin cc))) := by
    intro row acc
    exact foldl_pair_add4 _ _ _ (fun a col => hinner row col a) outC acc
  have houter := foldl_pair_add4 _ _ _ (fun a row => hmid row a) outR
    ((fun _ _ _ _ => 0), (fun _ _ _ _ => 0))
  rw [houter]
  apply Prod.ext <;> funext <;> simp

/-- C2: Conv2D backward.  With `dZ = activation.backward(Z, dLdY)`:
(a) the returned `dX` is the transposed-convolution scatter — each output
position/channel adds its kernel slice times `dZ` into the receptive-field
window of `dX_pad` (accumulated, not assigned, over all positions) — then
cropped back to the unpadded extent by the same pad offsets, keeping the
input's dimensions; (b) `gradients["W"]`'s channel slice accumulates, over
all output positions, the batch sum of the padded input window times `dZ`;
(c) `gradients["b"]` has shape `[1, n_out]` and equals the sum of `dZ`
over batch and both spatial axes. -/
theorem conv2d_backward_spec (actBack : T4f → T4f → T4f) (W : T4f)
    (kh kw nOut : Nat) (stride : Nat) (pad : Nat × Nat)
    (cacheX cacheZ : Tensor4) (dLdY : T4f) :
    (∀ i r c cc,
      (conv2dBackward actBack W kh kw nOut stride pad cacheX cacheZ
          dLdY).dX.data i r c cc
        = ∑ row in Finset.range ((cacheX.h + 2 * pad.1 - kh) / stride + 1),
            ∑ col in Finset.range ((cacheX.w + 2 * pad.2 - kw) / stride + 1),
              ∑ ch in Finset.range nOut,
                (if row * stride ≤ r + pad.1 ∧ r + pad.1 < row * stride + kh
                    ∧ col * stride ≤ c + pad.2 ∧ c + pad.2 < col * stride + kw
                  then W (r + pad.1 - row * stride) (c + pad.2 - col * stride) cc ch
                    * actBack cacheZ.data dLdY i row col ch
                  else 0))
    ∧ (conv2dBackward actBack W kh kw nOut stride pad cacheX cacheZ dLdY).dX.b
        = cacheX.b
    ∧ (conv2dBackward actBack W kh kw nOut stride pad cacheX cacheZ dLdY).dX.h
        = cacheX.h
    ∧ (conv2dBackward actBack W kh kw nOut stride pad cacheX cacheZ dLdY).dX.w
        = cacheX.w
    ∧ (conv2dBackward actBack W kh kw nOut stride pad cacheX cacheZ dLdY).dX.c
        = cacheX.c
    ∧ (∀ m n cin ch, ch < nOut →
        (conv2dBackward actBack W kh kw nOut stride pad cacheX cacheZ
            dLdY).gradW m n cin ch
          = ∑ row in Finset.range ((cacheX.h + 2 * pad.1 - kh) / stride + 1),
              ∑ col in Finset.range ((cacheX.w + 2 * pad.2 - kw) / stride + 1),
                ∑ i in Finset.range cacheX.b,
                  padData pad.1 pad.2 cacheX.h cacheX.w cacheX.data i
                      (row * stride + m) (col * stride + n) cin
                    * actBack cacheZ.data dLdY i row col ch)
    ∧ (conv2dBackward actBack W kh kw nOut stride pad cacheX cacheZ dLdY).gradB.r
        = 1
    ∧ (conv2dBackward actBack W kh kw nOut stride pad cacheX cacheZ dLdY).gradB.c
        = nOut
    ∧ (∀ ch,
        (conv2dBackward actBack W kh kw nOut stride pad cacheX cacheZ
            dLdY).gradB.data 0 ch
          = ∑ i in Finset.range cacheX.b,
              ∑ row in Finset.range ((cacheX.h + 2 * pad.1 - kh) / stride + 1),
                ∑ col in Finset.range ((cacheX.w + 2 * pad.2 - kw) / stride + 1),
                  actBack cacheZ.data dLdY i row col ch) := by
  refine ⟨?_, rfl, rfl, rfl, rfl, ?_, rfl, rfl, ?_⟩
  · intro i r c cc
    simp only [conv2dBackward]
    rw [conv2d_fold_closed]
    simp [convBwdContribX, sumT_eq_finset_sum]
  · intro m n cin ch hch
    simp only [conv2dBackward]
    rw [conv2d_fold_closed]
    simp only [convBwdContribW, sumT_eq_finset_sum]
    refine Finset.sum_congr rfl (fun row hrow2 => ?_)
    refine Finset.sum_congr rfl (fun col hcol2 => ?_)
    rw [Finset.sum_ite_eq, if_pos (Finset.mem_range.mpr hch)]
  · intro ch
    simp only [conv2dBackward]
    simp [sumT_eq_finset_sum]

theorem conv2d_backward_spec_witness :
    (0 : Nat) < 1
    ∧ (conv2dBackward (fun _ d => d) (fun _ _ _ _ => 3) 1 1 1 1 (0, 0)
        ⟨1, 1, 1, 1, fun _ _ _ _ => 2⟩ ⟨1, 1, 1, 1, fun _ _ _ _ => 0⟩
        (fun _ _ _ _ => 5)).dX.data 0 0 0 0 = 15
    ∧ (conv2dBackward (fun _ d => d) (fun _ _ _ _ => 3) 1 1 1 1 (0, 0)
        ⟨1, 1, 1, 1, fun _ _ _ _ => 2⟩ ⟨1, 1, 1, 1, fun _ _ _ _ => 0⟩
        (fun _ _ _ _ => 5)).gradW 0 0 0 0 = 10
    ∧ (conv2dBackward (fun _ d => d) (fun _ _ _ _ => 3) 1 1 1 1 (0, 0)
        ⟨1, 1, 1, 1, fun _ _ _ _ => 2⟩ ⟨1, 1, 1, 1, fun _ _ _ _ => 0⟩
        (fun _ _ _ _ => 5)).gradB.data 0 0 = 5 := by
  have h := conv2d_backward_spec (fun _ d => d) (fun _ _ _ _ => 3) 1 1 1 1
    (0, 0) ⟨1, 1, 1, 1, fun _ _ _ _ => 2⟩ ⟨1, 1, 1, 1, fun _ _ _ _ => 0⟩
    (fun _ _ _ _ => 5)
  refine ⟨by decide, ?_, ?_, ?_⟩
  · rw [h.1 0 0 0 0]
    norm_num
  · rw [h.2.2.2.2.2.1 0 0 0 0 (by decide)]
    norm_num [padData]
  · rw [h.2.2.2.2.2.2.2.2 0]
    norm_num
